import Mathlib

/-!
Verification of the time-domain orchestration engine in
`src/phoebe/backend/backends.py`.

Shallow embedding conventions:
* Python floats are modelled as rationals (`ℚ`).
* A Python value that is either a float or `None` (the protomesh time
  sentinel `[None]`) is modelled as `WithBot ℚ` (`⊥` plays the role of
  `None`; Python 2 orders `None` below every number, which is exactly the
  `WithBot` order).
* Bundle/parameter lookups (`b.get_value(...)`) are modelled as function
  fields of a `Bundle` structure; a lookup that raises `ValueError`
  (missing parameter) is modelled as an `Option` result.
* External numerical services (dynamics, mesh construction, the actual
  `compute_pblum_scale` physics, the legacy engine) are out of scope of the
  claims below and enter only as abstract data (e.g. the computed scale of
  a component is an opaque rational supplied by the configuration).
-/

/-- Python value that is either a float or None (py2 sorts None first,
matching the `WithBot` order). -/
abbrev PyV : Type := WithBot ℚ

/-- One work item ("this_info" dictionary of `_extract_from_bundle_by_time` /
`_extract_from_bundle_by_dataset`): dataset, component (None allowed), kind,
the `needs_mesh` flag and the resolved time array. -/
structure Info where
  dataset : String
  component : Option String
  kind : String
  needs_mesh : Bool
  times : List PyV
deriving DecidableEq, Repr

/-- Source line 27: backends that support the protomesh snapshot. -/
def _backends_that_support_protomesh : List String := ["phoebe", "legacy"]

/-- Source line 29: backends that support the automesh snapshot. -/
def _backends_that_support_automesh : List String := ["phoebe", "legacy"]

/-- Source line 31: backends that use numerical meshes. -/
def _backends_that_require_meshing : List String := ["phoebe", "legacy"]

/-- Declarative-description lookups consumed by the planner, modelled as a
record of total/partial functions.  `enabled`/`dsTimes` return `none` where
the corresponding `b.get_value` raises `ValueError` (missing parameter).
`dsKind` abstracts `obs_ps.kind` as the kind of the dataset (per-component
absence is captured by `dsTimes` returning `none`). -/
structure Bundle where
  datasets : List String
  stars : List String
  meshables : List String
  compute_kind : String
  enabled : String → Option Bool
  dsKind : String → String
  dsTimes : String → String → Option String → Option (List ℚ)
  exptime : String → ℚ
  fti_method : String → String
  fti_oversample : String → ℕ
  lc_method : String → String
  rv_method : String → Option String → String

/-- Embedding of `_needs_mesh` (source lines 33-51): decides whether a time
step of (dataset, kind, component) under the active compute options requires
a numerical mesh. -/
def _needs_mesh (b : Bundle) (dataset kind : String) (component : Option String) : Bool :=
  if ¬ _backends_that_require_meshing.contains b.compute_kind then
    false
  else if ¬ (["mesh", "lc", "rv"].contains kind) then
    false
  else if kind == "lc" && b.compute_kind == "phoebe" && b.lc_method dataset == "analytical" then
    false
  else if kind == "rv" && (b.compute_kind == "legacy" || b.rv_method dataset component == "dynamical") then
    false
  else
    true

/-- Embedding of `_timequalifier_by_kind` (source lines 54-58). -/
def _timequalifier_by_kind (kind : String) : String :=
  if kind == "etv" then "time_ephems" else "times"

/-- Embedding of `np.linspace(a, b, num)`: `num` uniformly spaced samples
from `a` to `b` inclusive (`[a]` for `num = 1`, `[]` for `num = 0`). -/
def linspace (a b : ℚ) (num : ℕ) : List ℚ :=
  if num = 0 then []
  else if num = 1 then [a]
  else (List.range num).map (fun i : ℕ => a + (b - a) * (i : ℚ) / ((num : ℚ) - 1))

/-- Embedding of the time-override step (source lines 117-119 and 235-237):
`if len(this_times) and provided_times is not None: this_times = provided_times`. -/
def overrideTimes (provided : Option (List ℚ)) (raw : List ℚ) : List ℚ :=
  if raw.length ≠ 0 ∧ provided.isSome then provided.getD [] else raw

/-- Embedding of the exposure-time oversampling substitution (source line 135):
each time is replaced by `np.linspace(t-exptime/2, t+exptime/2, fti_oversample)`
and the result flattened. -/
def oversampleTimes (exptime : ℚ) (n : ℕ) (ts : List ℚ) : List ℚ :=
  (ts.map (fun t => linspace (t - exptime / 2) (t + exptime / 2) n)).flatten

/-- Resolution of a dataset time array in `_extract_from_bundle_by_time`
(source lines 114-135): apply the external override, then exposure-time
oversampling when `allow_oversample` is set, the kind is `lc`, the exposure
time is positive and the finite-integration-time method is `oversample`. -/
def resolveTimes (b : Bundle) (allow_oversample : Bool) (provided : Option (List ℚ))
    (dataset kind : String) (raw : List ℚ) : List ℚ :=
  let t1 := overrideTimes provided raw
  if allow_oversample = true ∧ ["lc"].contains kind ∧
      b.exptime dataset > 0 ∧ b.fti_method dataset = "oversample" then
    oversampleTimes (b.exptime dataset) (b.fti_oversample dataset) t1
  else t1

/-- Body of the per-component loop of the extraction functions (source lines
99-151 / 218-256), producing the work items contributed by one
(dataset, component) pair and appending them to the accumulator. -/
def datasetStep (b : Bundle) (allow_oversample : Bool) (provided : Option (List ℚ))
    (dataset : String) (acc : List Info) (comp : Option String) : List Info :=
  let kind := b.dsKind dataset
  if comp.isNone ∧ ¬ (["lc", "mesh"].contains kind) then acc
  else
    match b.dsTimes (_timequalifier_by_kind kind) dataset comp with
    | none => acc
    | some raw =>
      let this_times := resolveTimes b allow_oversample provided dataset kind raw
      if this_times.length ≠ 0 then
        let comps : List (Option String) :=
          if comp.isNone ∧ ["mesh"].contains kind then b.meshables.map some else [comp]
        acc ++ comps.map (fun c =>
          { dataset := dataset, component := c, kind := kind,
            needs_mesh := _needs_mesh b dataset kind c,
            times := this_times.map (fun t : ℚ => (t : PyV)) })
      else acc

/-- Work items contributed by one dataset (source lines 84-151): skip the
`_default` placeholder, skip datasets whose `enabled` parameter is missing
for these compute options or is false, then loop over stars plus the
system-level pseudo-component `None`. -/
def infosForDataset (b : Bundle) (allow_oversample : Bool) (provided : Option (List ℚ))
    (dataset : String) : List Info :=
  if dataset = "_default" then []
  else
    match b.enabled dataset with
    | none => []
    | some e =>
      if ¬ e then []
      else ((b.stars.map some) ++ [none]).foldl
        (datasetStep b allow_oversample provided dataset) []

/-- All real (non-virtual) work items, in dataset/component encounter order. -/
def realInfos (b : Bundle) (allow_oversample : Bool) (provided : Option (List ℚ)) : List Info :=
  (b.datasets.map (infosForDataset b allow_oversample provided)).flatten

/-- Embedding of the grid insertion (source lines 153-161): `for time_ in
this_times: if time_ in times: infos[times.index(time_)].append(this_info)
else: times.append(time_); infos.append([this_info])`. -/
def insertTime (st : List PyV × List (List Info)) (i : Info) (t : PyV) :
    List PyV × List (List Info) :=
  if st.1.contains t then
    let ind := st.1.indexOf t
    (st.1, st.2.set ind ((st.2.getD ind []) ++ [i]))
  else
    (st.1 ++ [t], st.2 ++ [[i]])

/-- Insertion of all times of one work item into the global grid. -/
def addInfo (st : List PyV × List (List Info)) (i : Info) : List PyV × List (List Info) :=
  i.times.foldl (fun s t => insertTime s i t) st

/-- The unsorted global time grid with its parallel per-time work-item lists. -/
def buildGrid (l : List Info) : List PyV × List (List Info) :=
  l.foldl addInfo ([], [])

/-- Comparison used for the final `ti.sort()` of (time, infolist) pairs
(source lines 170-173); the grid times are pairwise distinct at that point,
so only the first components are compared. -/
def pairLe (a b : PyV × List Info) : Prop := a.1 ≤ b.1

instance : DecidableRel pairLe := fun a b => inferInstanceAs (Decidable (a.1 ≤ b.1))

instance : IsTotal (PyV × List Info) pairLe := ⟨fun a b => le_total a.1 b.1⟩

instance : IsTrans (PyV × List Info) pairLe := ⟨fun _ _ _ h h2 => le_trans h h2⟩

/-- Embedding of `ti = zip(times, infos); ti.sort(); times, infos = zip(*ti)`. -/
def sortPairs (ts : List PyV) (infos : List (List Info)) :
    List PyV × List (List Info) :=
  let sorted := List.insertionSort pairLe (ts.zip infos)
  (sorted.map (fun p => p.1), sorted.map (fun p => p.2))

/-- Embedding of `_handle_protomesh` (source lines 268-284): when the engine
supports protomesh output, append one reference-epoch mesh item per meshable
component; the `[None]` time sentinel is the `⊥` of `PyV`. -/
def _handle_protomesh (b : Bundle) (needed : List Info) (infos : List (List Info)) :
    List Info × List (List Info) :=
  if _backends_that_support_protomesh.contains b.compute_kind then
    (needed ++ b.meshables.map (fun comp =>
      { dataset := "protomesh", component := some comp, kind := "mesh",
        needs_mesh := false, times := [(⊥ : PyV)] }), infos)
  else (needed, infos)

/-- Step of the dataset-keyed dict comprehension of `_handle_automesh`
(source line 302): a later entry with the same dataset replaces the earlier
one. -/
def upsertByDataset (acc : List Info) (i : Info) : List Info :=
  acc.filter (fun j => j.dataset ≠ i.dataset) ++ [i]

/-- Embedding of `needs_mesh_infos` (source line 302): the values of the
dict keyed by dataset over all mesh-requiring non-mesh work items (one
representative per dataset, the last encountered). -/
def needsMeshInfos (needed : List Info) : List Info :=
  (needed.filter (fun i => i.needs_mesh ∧ ¬ (["mesh"].contains i.kind))).foldl
    upsertByDataset []

/-- Embedding of `list(set(xs)); sort()` (source lines 318-319):
deduplicate, then sort ascending. -/
def sortedDedup (l : List PyV) : List PyV :=
  List.insertionSort (· ≤ ·) l.dedup

/-- The automesh time array (source lines 313-319): sorted deduplicated
union of the time arrays of the per-dataset representatives. -/
def autoTimes (needed : List Info) : List PyV :=
  sortedDedup ((needsMeshInfos needed).map (fun i => i.times)).flatten

/-- Append a work item to the per-time list at one grid slot
(`infos[ind].append(this_info)`). -/
def appendAt (infos : List (List Info)) (ind : ℕ) (i : Info) : List (List Info) :=
  infos.set ind ((infos.getD ind []) ++ [i])

/-- Python truthiness of the `times` argument of `_handle_automesh`
(`times=False` from the by-dataset path, the grid list from the by-time
path). -/
def gridTruthy : Option (List PyV) → Bool
  | none => false
  | some l => !l.isEmpty

/-- One pbmesh work item of `_handle_automesh` (source lines 322-326), with
the given time array. -/
def mkPb (ts : List PyV) (comp : String) : Info where
  dataset := "pbmesh"
  component := some comp
  kind := "mesh"
  needs_mesh := true
  times := ts

/-- One step of the per-time registration loop of `_handle_automesh`
(source lines 329-331): `ind = times.index(time); infos[ind].append(this_info)`,
where a missing index (`ValueError` in the source) is `none`. -/
def automeshInner (g : List PyV) (i : Info) (inf : List (List Info)) (t : PyV) :
    Option (List (List Info)) :=
  if g.contains t then some (appendAt inf (g.indexOf t) i) else none

/-- Body of the per-component loop of `_handle_automesh` (source lines
309-333): build the pbmesh item, register it into the matching per-time
lists when the grid argument is truthy, then append it to `needed_syns`. -/
def automeshStep (ts : List PyV) (gridTimes : Option (List PyV))
    (st : List Info × List (List Info)) (comp : String) :
    Option (List Info × List (List Info)) :=
  match (if gridTruthy gridTimes then
      ts.foldlM (automeshInner (gridTimes.getD []) (mkPb ts comp)) st.2
    else some st.2) with
  | none => none
  | some infos2 => some (st.1 ++ [mkPb ts comp], infos2)

/-- Embedding of `_handle_automesh` (source lines 286-335).  When the engine
supports automesh output, one `pbmesh` mesh item per meshable component is
appended, carrying the union time array; in by-time mode (`gridTimes` truthy)
the item is also appended to the per-time list at `times.index(time)` for
each of its times.  The union time array does not depend on the loop
component, so it is hoisted out of the component loop (the source recomputes
the identical array from the fixed `needs_mesh_infos` on every iteration). -/
def _handle_automesh (b : Bundle) (needed : List Info) (infos : List (List Info))
    (gridTimes : Option (List PyV)) : Option (List Info × List (List Info)) :=
  if _backends_that_support_automesh.contains b.compute_kind then
    b.meshables.foldlM (automeshStep (autoTimes needed) gridTimes) (needed, infos)
  else some (needed, infos)

/-- Embedding of `_extract_from_bundle_by_time` (source lines 60-175): build
the work items, merge their times into the deduplicated global grid, run the
protomesh/automesh handlers, then sort the (time, infolist) pairs (only when
the grid is non-empty, mirroring `if len(times):`).  The third component is
`needed_syns`, the list of container requests handed to `_create_syns`. -/
def extractByTime (b : Bundle) (provided : Option (List ℚ))
    (protomesh pbmesh allow_oversample : Bool) :
    Option (List PyV × List (List Info) × List Info) :=
  let real := realInfos b allow_oversample provided
  let st := buildGrid real
  let ni1 := if protomesh then _handle_protomesh b real st.2 else (real, st.2)
  match (if pbmesh then _handle_automesh b ni1.1 ni1.2 (some st.1) else some ni1) with
  | none => none
  | some ni2 =>
    let si := if st.1.isEmpty then (st.1, ni2.2) else sortPairs st.1 ni2.2
    some (si.1, si.2, ni2.1)

/-- Embedding of `_extract_from_bundle_by_dataset` (source lines 177-266):
identical per-item construction (without the oversampling block, which the
by-time variant alone contains), but each work item is emitted in its own
singleton grouping in encounter order and no global time grid is built
(`_handle_automesh` receives `times=False`). -/
def extractByDataset (b : Bundle) (provided : Option (List ℚ))
    (protomesh pbmesh : Bool) : Option (List (List Info) × List Info) :=
  let real := realInfos b false provided
  let infos := real.map (fun i => [i])
  let ni1 := if protomesh then _handle_protomesh b real infos else (real, infos)
  match (if pbmesh then _handle_automesh b ni1.1 ni1.2 none else some ni1) with
  | none => none
  | some ni2 => some (ni2.2, ni2.1)

/-- Pointwise update of a component-indexed store. -/
def updateStore (f : String → Option ℚ) (k : String) (v : Option ℚ) : String → Option ℚ :=
  fun s => if s = k then v else f s

/-- Configuration of the luminosity calibration for one light-curve dataset
(source lines 571-592): the meshable components, the per-component
`pblum_ref` parameter ("self" or the name of the referenced component), and
the scale produced by `compute_pblum_scale` for a self-computed component
(external passband physics, abstracted as a rational). -/
structure PblumCfg where
  meshables : List String
  pblum_ref : String → String
  computed_scale : String → ℚ

/-- Body of the first pass of the calibration loop (source lines 572-587):
a self-referencing component has its scale computed and stored at once; any
other component is deferred by recording `pblum_copy[component] = pblum_ref`. -/
def pblumStep (cfg : PblumCfg) (st : (String → Option ℚ) × List (String × String))
    (component : String) : (String → Option ℚ) × List (String × String) :=
  if component = "_default" then st
  else if cfg.pblum_ref component = "self" then
    (updateStore st.1 component (some (cfg.computed_scale component)), st.2)
  else
    (st.1, st.2 ++ [(component, cfg.pblum_ref component)])

/-- First pass over all meshable components: stored scales plus the deferred
copy list (the py2 dict `pblum_copy` is modelled as an association list in
insertion order; keys are unique because `pblum_ref` is a function of the
component). -/
def pblumPhase1 (cfg : PblumCfg) : (String → Option ℚ) × List (String × String) :=
  cfg.meshables.foldl (pblumStep cfg) (fun _ => none, [])

/-- Second pass (source lines 591-592): `system.get_body(comp)._pblum_scale[dataset]
= system.get_body(comp_copy).get_pblum_scale(dataset)` for every deferred entry. -/
def pblumCopyPass (scales : String → Option ℚ) (copies : List (String × String)) :
    String → Option ℚ :=
  copies.foldl (fun sc p => updateStore sc p.1 (sc p.2)) scales

/-- Final per-component scale store after both passes of the calibration. -/
def pblum_resolve (cfg : PblumCfg) : String → Option ℚ :=
  pblumCopyPass (pblumPhase1 cfg).1 (pblumPhase1 cfg).2

/-- Outcome of the per-kind dispatch of the main compute loop. -/
inductive FillOutcome where
  | filled (branch : String)
  | notImplemented (msg : String)
deriving DecidableEq, Repr

/-- Embedding of the kind dispatch of the main compute loop (source lines
677-820).  Each arm of the original chain writes observables into the
matching synthetic container through external System/container calls; here
an arm is represented by a tag recording which branch ran, because the
claims about this dispatch concern only which kinds are handled and which
raise.  The final `else` reproduces the `NotImplementedError` message
(source line 820) with the kind interpolated. -/
def fillKindDispatch (kind : String) (needs_mesh : Bool) : FillOutcome :=
  if kind == "rv" then
    .filled (if needs_mesh then "rv-flux-weighted" else "rv-dynamical")
  else if kind == "lc" then .filled "lc"
  else if kind == "etv" then .filled "etv"
  else if kind == "ifm" then .filled "ifm"
  else if kind == "orb" then .filled "orb"
  else if kind == "mesh" then .filled "mesh"
  else .notImplemented ("kind " ++ kind ++ " not yet supported by this backend")

/-- Outcome of the analytic-horizon block of the mesh filler. -/
inductive HorizonResult where
  | skipped
  | stored (mesh_method : String)
  | unsupported (msg : String)
deriving DecidableEq, Repr

/-- Embedding of the analytic-horizon block (source lines 779-796): only
inside `do_horizon` and only for `distortion_method == "roche"` is anything
attempted; `marching` and `wd` mesh methods compute and store the horizon
(external geometry, represented by the method tag), any other mesh method
raises `NotImplementedError`; a distortion method other than `roche` falls
through the block with no store and no error.  The message of the source
interpolates the mesh method between single quotes, rendered here by plain
concatenation. -/
def analytic_horizon_step (do_horizon : Bool) (distortion_method mesh_method : String) :
    HorizonResult :=
  if do_horizon then
    if distortion_method == "roche" then
      if mesh_method == "marching" then .stored "marching"
      else if mesh_method == "wd" then .stored "wd"
      else .unsupported ("analytic horizon not implemented for mesh_method=" ++ mesh_method)
    else .skipped
  else .skipped

/-- Boolean test that `small` starts the list `big`. -/
def listStartsWith : List Char → List Char → Bool
  | [], _ => true
  | _ :: _, [] => false
  | a :: as, b :: bs => a == b && listStartsWith as bs

/-- Boolean substring test on character lists (pattern, text). -/
def listContains (pat : List Char) : List Char → Bool
  | [] => listStartsWith pat []
  | c :: rest => listStartsWith pat (c :: rest) || listContains pat rest

/-- Substring test on strings: does `s` contain `pat`. -/
def strContains (s pat : String) : Bool :=
  listContains pat.data s.data

/-- Python truthiness of a string literal (a non-empty string is true). -/
def pyTruthy (s : String) : Bool := s ≠ ""

/-- Quadrant expansion with the y-axis sign pattern (source line 979):
`np.array(zip(p, p, -p, -p, p, p, -p, -p)).flatten()`. -/
def mirrorY (v : List ℚ) : List ℚ :=
  (v.map (fun x => [x, x, -x, -x, x, x, -x, -x])).flatten

/-- Quadrant expansion with the z-axis sign pattern (source line 981):
`np.array(zip(p, p, p, p, -p, -p, -p, -p)).flatten()`. -/
def mirrorZ (v : List ℚ) : List ℚ :=
  (v.map (fun x => [x, x, x, x, -x, -x, -x, -x])).flatten

/-- Quadrant expansion with no sign change (source line 983). -/
def mirrorNone (v : List ℚ) : List ℚ :=
  (v.map (fun x => [x, x, x, x, x, x, x, x])).flatten

/-- Embedding of the protomesh quadrant expansion of `fill_mesh` in the
legacy adapter (source lines 973-983).  The source reads

  if 'vcy' or 'gry' in key: key_val = (y pattern)
  if 'vcz' or 'grz' in key: key_val = (z pattern) else: key_val = (unsigned)

Python parses each condition as `('vcy') or ('gry' in key)`; the string
literal is truthy, so both conditions hold for every key: the first
assignment (kept here as the dead binding `_kv`) is always overwritten by
the second `if`, whose `else` branch never runs. -/
def protoKeyVal (key : String) (prot_val : List ℚ) : List ℚ :=
  let _kv := if pyTruthy "vcy" || strContains key "gry" then mirrorY prot_val else []
  if pyTruthy "vcz" || strContains key "grz" then mirrorZ prot_val
  else mirrorNone prot_val

/-- Concrete single-light-curve bundle: one enabled `lc` dataset with the
system-level time array `[1, 0]`, no oversampling. -/
def bLC : Bundle where
  datasets := ["lc01"]
  stars := ["primary", "secondary"]
  meshables := ["primary", "secondary"]
  compute_kind := "phoebe"
  enabled := fun _ => some true
  dsKind := fun _ => "lc"
  dsTimes := fun _ _ comp => if comp.isNone then some [1, 0] else none
  exptime := fun _ => 0
  fti_method := fun _ => "none"
  fti_oversample := fun _ => 0
  lc_method := fun _ => "numerical"
  rv_method := fun _ _ => "flux-weighted"

/-- The single work item produced by `bLC`. -/
def iLC : Info where
  dataset := "lc01"
  component := none
  kind := "lc"
  needs_mesh := true
  times := [(1 : ℚ), (0 : ℚ)]

/-- Concrete bundle on the legacy engine whose light-curve flux method is
configured analytic. -/
def bLegacyAnalytic : Bundle where
  datasets := ["lc01"]
  stars := ["primary", "secondary"]
  meshables := ["primary", "secondary"]
  compute_kind := "legacy"
  enabled := fun _ => some true
  dsKind := fun _ => "lc"
  dsTimes := fun _ _ _ => none
  exptime := fun _ => 0
  fti_method := fun _ => "none"
  fti_oversample := fun _ => 0
  lc_method := fun _ => "analytical"
  rv_method := fun _ _ => "flux-weighted"

/-- Concrete bundle on the phoebe engine with an analytic light-curve flux
method. -/
def bPhoebeAnalytic : Bundle where
  datasets := ["lc01"]
  stars := ["primary", "secondary"]
  meshables := ["primary", "secondary"]
  compute_kind := "phoebe"
  enabled := fun _ => some true
  dsKind := fun _ => "lc"
  dsTimes := fun _ _ _ => none
  exptime := fun _ => 0
  fti_method := fun _ => "none"
  fti_oversample := fun _ => 0
  lc_method := fun _ => "analytical"
  rv_method := fun _ _ => "flux-weighted"

/-- Concrete bundle on an engine without numerical meshing. -/
def bNoMesh : Bundle where
  datasets := ["lc01"]
  stars := ["primary", "secondary"]
  meshables := ["primary", "secondary"]
  compute_kind := "jktebop"
  enabled := fun _ => some true
  dsKind := fun _ => "lc"
  dsTimes := fun _ _ _ => none
  exptime := fun _ => 0
  fti_method := fun _ => "none"
  fti_oversample := fun _ => 0
  lc_method := fun _ => "numerical"
  rv_method := fun _ _ => "flux-weighted"

/-- Concrete bundle with oversampling configured: exposure time `1/10`,
oversample count 3, finite-integration-time method `oversample`. -/
def bOS : Bundle where
  datasets := ["lc01"]
  stars := ["primary", "secondary"]
  meshables := ["primary", "secondary"]
  compute_kind := "phoebe"
  enabled := fun _ => some true
  dsKind := fun _ => "lc"
  dsTimes := fun _ _ comp => if comp.isNone then some [5] else none
  exptime := fun _ => 1/10
  fti_method := fun _ => "oversample"
  fti_oversample := fun _ => 3
  lc_method := fun _ => "numerical"
  rv_method := fun _ _ => "flux-weighted"

/-- Mesh-requiring radial-velocity work item on the primary with time 1
(same dataset as `iRV2`). -/
def iRV1 : Info where
  dataset := "rv01"
  component := some "primary"
  kind := "rv"
  needs_mesh := true
  times := [(1 : ℚ)]

/-- Mesh-requiring radial-velocity work item on the secondary with time 2
(same dataset as `iRV1`, different per-component time array). -/
def iRV2 : Info where
  dataset := "rv01"
  component := some "secondary"
  kind := "rv"
  needs_mesh := true
  times := [(2 : ℚ)]

/-- The pbmesh work item that `_handle_automesh` builds for one component
from the deduplicated-by-dataset representatives of `needed`. -/
def pbItem (needed : List Info) (comp : String) : Info :=
  mkPb (autoTimes needed) comp

/-- Concrete pblum configuration: component A copies from component B, B is
self-computed. -/
def pbCfg : PblumCfg where
  meshables := ["primary", "secondary"]
  pblum_ref := fun s => if s = "primary" then "secondary" else "self"
  computed_scale := fun _ => 7

/-! Helper lemmas shared by the claim theorems. -/

theorem listStartsWith_append (p r : List Char) : listStartsWith p (p ++ r) = true := by
  induction p with
  | nil => rfl
  | cons a as ih => simp [listStartsWith, ih]

theorem listContains_of_startsWith (p s : List Char) (h : listStartsWith p s = true) :
    listContains p s = true := by
  cases s with
  | nil => exact h
  | cons c rest => simp [listContains, h]

theorem listContains_append (pre p post : List Char) :
    listContains p (pre ++ (p ++ post)) = true := by
  induction pre with
  | nil =>
    exact listContains_of_startsWith _ _ (listStartsWith_append p post)
  | cons c cs ih => simp [listContains, ih]

theorem strContains_concat (pre mid post : String) :
    strContains (pre ++ mid ++ post) mid = true := by
  unfold strContains
  have h : (pre ++ mid ++ post).data = pre.data ++ (mid.data ++ post.data) := by
    simp [String.data_append]
  rw [h]
  exact listContains_append _ _ _

/-- C2: for every dataset, kind, component and compute configuration,
`_needs_mesh` is false whenever the active compute engine does not support
numerical meshing, regardless of the observable kind. -/
theorem needs_mesh_false_without_meshing (b : Bundle) (dataset kind : String)
    (component : Option String)
    (h : b.compute_kind ∉ _backends_that_require_meshing) :
    _needs_mesh b dataset kind component = false := by
  unfold _needs_mesh
  rw [if_pos]
  simpa using h

theorem needs_mesh_false_without_meshing_witness :
    bNoMesh.compute_kind ∉ _backends_that_require_meshing ∧
      _needs_mesh bNoMesh "lc01" "lc" none = false :=
  ⟨by decide, needs_mesh_false_without_meshing bNoMesh "lc01" "lc" none (by decide)⟩

/-- C3 counterexample: on the legacy engine (which requires meshing and for
which an analytic light-curve shortcut would apply per the claim), a
light-curve dataset whose configured flux method is analytic still has
`_needs_mesh` equal to true - the analytic shortcut of the source (line 45)
is guarded by `compute_kind == "phoebe"`. -/
theorem lc_analytic_legacy_counterexample :
    bLegacyAnalytic.compute_kind ∈ _backends_that_require_meshing ∧
      bLegacyAnalytic.lc_method "lc01" = "analytical" ∧
      _needs_mesh bLegacyAnalytic "lc01" "lc" none = true := by
  decide

/-- C3 amended: for a light-curve dataset whose configured flux method is
analytic, `_needs_mesh` is false when the active engine is the phoebe
engine (the source consults the flux method only there). -/
theorem lc_analytic_phoebe_no_mesh (b : Bundle) (dataset : String)
    (component : Option String)
    (hk : b.compute_kind = "phoebe") (hm : b.lc_method dataset = "analytical") :
    _needs_mesh b dataset "lc" component = false := by
  unfold _needs_mesh
  rw [if_neg, if_neg, if_pos]
  · simp [hk, hm]
  · simp
  · simp [hk, _backends_that_require_meshing]

theorem lc_analytic_phoebe_no_mesh_witness :
    bPhoebeAnalytic.compute_kind = "phoebe" ∧
      bPhoebeAnalytic.lc_method "lc01" = "analytical" ∧
      _needs_mesh bPhoebeAnalytic "lc01" "lc" none = false :=
  ⟨rfl, rfl, lc_analytic_phoebe_no_mesh bPhoebeAnalytic "lc01" none rfl rfl⟩

/-- C7: every work item whose kind is outside the supported observable kinds
(mesh, sp, rv, lc, etv, ifm, orb) makes the main compute loop raise
`NotImplementedError` with a message that names the offending kind (source
line 820); the item is not silently skipped. -/
theorem unsupported_kind_not_implemented (kind : String) (needs_mesh : Bool)
    (h : kind ∉ ["mesh", "sp", "rv", "lc", "etv", "ifm", "orb"]) :
    fillKindDispatch kind needs_mesh =
      .notImplemented ("kind " ++ kind ++ " not yet supported by this backend")
    ∧ strContains ("kind " ++ kind ++ " not yet supported by this backend") kind = true := by
  simp only [List.mem_cons, List.not_mem_nil, or_false, not_or] at h
  obtain ⟨hmesh, hsp, hrv, hlc, hetv, hifm, horb⟩ := h
  constructor
  · unfold fillKindDispatch
    rw [if_neg, if_neg, if_neg, if_neg, if_neg, if_neg]
    all_goals simp [*]
  · exact strContains_concat "kind " kind " not yet supported by this backend"

theorem unsupported_kind_not_implemented_witness :
    ("foo" : String) ∉ (["mesh", "sp", "rv", "lc", "etv", "ifm", "orb"] : List String) ∧
      (fillKindDispatch "foo" true =
        .notImplemented ("kind " ++ "foo" ++ " not yet supported by this backend")
      ∧ strContains ("kind " ++ "foo" ++ " not yet supported by this backend") "foo" = true) :=
  ⟨by decide, unsupported_kind_not_implemented "foo" true (by decide)⟩

/-- C8 counterexample: with an analytic horizon requested on a mesh item,
a body whose distortion method is not roche (here rotstar, with the
marching mesh method) makes the analytic-horizon block fall through with
neither a stored horizon nor an error - the claimed unsupported-method
failure does not happen. -/
theorem analytic_horizon_skip_counterexample :
    analytic_horizon_step true "rotstar" "marching" = .skipped ∧
      ∀ r : HorizonResult, r = analytic_horizon_step true "rotstar" "marching" →
        (∀ msg, r ≠ .unsupported msg) ∧ (∀ mm, r ≠ .stored mm) := by
  constructor
  · decide
  · intro r hr
    subst hr
    constructor
    · intro msg h
      simp [analytic_horizon_step] at h
    · intro mm h
      simp [analytic_horizon_step] at h

/-- C8 amended: the unsupported-method error is raised only for a roche
body whose mesh method is neither marching nor wd (and the message names
the mesh method); roche with marching or wd computes and stores the
analytic horizon; a body with any other distortion method silently skips
the analytic-horizon computation (as does an unset horizon flag). -/
theorem analytic_horizon_amended (dm mm : String)
    (hdm : dm ≠ "roche") (h1 : mm ≠ "marching") (h2 : mm ≠ "wd") :
    analytic_horizon_step true dm mm = .skipped
    ∧ analytic_horizon_step false dm mm = .skipped
    ∧ analytic_horizon_step true "roche" "marching" = .stored "marching"
    ∧ analytic_horizon_step true "roche" "wd" = .stored "wd"
    ∧ analytic_horizon_step true "roche" mm =
        .unsupported ("analytic horizon not implemented for mesh_method=" ++ mm)
    ∧ strContains ("analytic horizon not implemented for mesh_method=" ++ mm) mm = true := by
  refine ⟨?_, rfl, by decide, by decide, ?_, ?_⟩
  · simp [analytic_horizon_step, hdm]
  · simp [analytic_horizon_step, h1, h2]
  · have h : ("analytic horizon not implemented for mesh_method=" ++ mm)
        = "analytic horizon not implemented for mesh_method=" ++ mm ++ "" := by
      simp
    rw [h]
    exact strContains_concat _ _ _

theorem analytic_horizon_amended_witness :
    ("rotstar" : String) ≠ "roche" ∧ ("trapezoid" : String) ≠ "marching" ∧
      ("trapezoid" : String) ≠ "wd" ∧
      (analytic_horizon_step true "rotstar" "trapezoid" = .skipped
      ∧ analytic_horizon_step false "rotstar" "trapezoid" = .skipped
      ∧ analytic_horizon_step true "roche" "marching" = .stored "marching"
      ∧ analytic_horizon_step true "roche" "wd" = .stored "wd"
      ∧ analytic_horizon_step true "roche" "trapezoid" =
          .unsupported ("analytic horizon not implemented for mesh_method=" ++ "trapezoid")
      ∧ strContains ("analytic horizon not implemented for mesh_method=" ++ "trapezoid")
          "trapezoid" = true) :=
  ⟨by decide, by decide, by decide,
    analytic_horizon_amended "rotstar" "trapezoid" (by decide) (by decide) (by decide)⟩

/-- C9 (code bug evidence): in the protomesh translation of the legacy
adapter, the conditions selecting the quadrant sign pattern are Python
truthiness slips (`if 'vcy' or 'gry' in key` is always true), so every
column receives the z-axis sign pattern: the unsigned temperature column
`tloc1` comes out negated on the mirrored-z hemisphere instead of copied
unsigned, and the y-axis column `vcy1` receives the z pattern instead of
the y pattern. -/
theorem protomesh_mirror_sign_eval :
    protoKeyVal "tloc1" [1] = [1, 1, 1, 1, -1, -1, -1, -1]
    ∧ protoKeyVal "vcy1" [1] = [1, 1, 1, 1, -1, -1, -1, -1]
    ∧ mirrorY [1] = [1, 1, -1, -1, 1, 1, -1, -1]
    ∧ mirrorNone [1] = [1, 1, 1, 1, 1, 1, 1, 1]
    ∧ protoKeyVal "tloc1" [1] ≠ mirrorNone [1]
    ∧ protoKeyVal "vcy1" [1] ≠ mirrorY [1]
    ∧ (∀ key : String, ∀ v : List ℚ, protoKeyVal key v = mirrorZ v) := by
  refine ⟨by decide, by decide, by decide, by decide, by decide, by decide, ?_⟩
  intro key v
  simp [protoKeyVal, pyTruthy]

theorem pblumStep_fst_preserved (cfg : PblumCfg) (s : String)
    (l : List String) (st : (String → Option ℚ) × List (String × String))
    (h : st.1 s = some (cfg.computed_scale s)) :
    (l.foldl (pblumStep cfg) st).1 s = some (cfg.computed_scale s) := by
  induction l generalizing st with
  | nil => exact h
  | cons a as ih =>
    rw [List.foldl_cons]
    apply ih
    unfold pblumStep
    split_ifs with hd hself
    · exact h
    · unfold updateStore
      by_cases hsa : s = a
      · subst hsa
        simp
      · simp [hsa, h]
    · exact h

theorem pblumPhase1_self (cfg : PblumCfg) (s : String)
    (hself : cfg.pblum_ref s = "self") (hd : s ≠ "_default")
    (l : List String) (st : (String → Option ℚ) × List (String × String))
    (hmem : s ∈ l) :
    (l.foldl (pblumStep cfg) st).1 s = some (cfg.computed_scale s) := by
  induction l generalizing st with
  | nil => exact absurd hmem (List.not_mem_nil s)
  | cons a as ih =>
    rw [List.foldl_cons]
    by_cases hsa : s = a
    · subst hsa
      apply pblumStep_fst_preserved
      unfold pblumStep
      rw [if_neg hd, if_pos hself]
      unfold updateStore
      simp
    · exact ih _ ((List.mem_cons.1 hmem).resolve_left hsa)

theorem pblumStep_snd_spec (cfg : PblumCfg)
    (l : List String) (st : (String → Option ℚ) × List (String × String))
    (p : String × String) (hp : p ∈ (l.foldl (pblumStep cfg) st).2) :
    p ∈ st.2 ∨ (p.1 ≠ "_default" ∧ cfg.pblum_ref p.1 ≠ "self" ∧ p.2 = cfg.pblum_ref p.1) := by
  induction l generalizing st with
  | nil => exact Or.inl hp
  | cons a as ih =>
    rw [List.foldl_cons] at hp
    rcases ih _ hp with h | h
    · unfold pblumStep at h
      split_ifs at h with hd hself
      · exact Or.inl h
      · exact Or.inl h
      · rcases List.mem_append.1 h with h2 | h2
        · exact Or.inl h2
        · right
          rcases List.mem_singleton.1 h2 with rfl
          exact ⟨hd, hself, rfl⟩
    · exact Or.inr h

theorem pblumStep_snd_mono (cfg : PblumCfg)
    (l : List String) (st : (String → Option ℚ) × List (String × String))
    (p : String × String) (hp : p ∈ st.2) :
    p ∈ (l.foldl (pblumStep cfg) st).2 := by
  induction l generalizing st with
  | nil => exact hp
  | cons a as ih =>
    rw [List.foldl_cons]
    apply ih
    unfold pblumStep
    split_ifs
    · exact hp
    · exact hp
    · exact List.mem_append_left _ hp

theorem pblumPhase1_copy_mem (cfg : PblumCfg) (c : String)
    (hc : cfg.pblum_ref c ≠ "self") (hd : c ≠ "_default")
    (l : List String) (st : (String → Option ℚ) × List (String × String))
    (hmem : c ∈ l) :
    (c, cfg.pblum_ref c) ∈ (l.foldl (pblumStep cfg) st).2 := by
  induction l generalizing st with
  | nil => exact absurd hmem (List.not_mem_nil c)
  | cons a as ih =>
    rw [List.foldl_cons]
    by_cases hca : c = a
    · subst hca
      apply pblumStep_snd_mono
      unfold pblumStep
      rw [if_neg hd, if_neg hc]
      exact List.mem_append_right _ (List.mem_singleton.2 rfl)
    · exact ih _ ((List.mem_cons.1 hmem).resolve_left hca)

theorem pblumCopyPass_preserved (copies : List (String × String))
    (scales : String → Option ℚ) (r : String)
    (h : ∀ p ∈ copies, p.1 ≠ r) :
    pblumCopyPass scales copies r = scales r := by
  induction copies generalizing scales with
  | nil => rfl
  | cons p ps ih =>
    unfold pblumCopyPass at ih ⊢
    rw [List.foldl_cons, ih _ (fun q hq => h q (List.mem_cons_of_mem _ hq))]
    unfold updateStore
    rw [if_neg]
    exact fun hrp => h p (List.mem_cons_self _ _) hrp.symm

theorem pblumCopyPass_copies (copies : List (String × String))
    (scales : String → Option ℚ) (c r : String) (v : Option ℚ)
    (hrv : scales r = v) (hr : ∀ p ∈ copies, p.1 ≠ r)
    (hc : ∀ p ∈ copies, p.1 = c → p.2 = r)
    (hmem : (c, r) ∈ copies ∨ scales c = v) :
    pblumCopyPass scales copies c = v := by
  induction copies generalizing scales with
  | nil =>
    rcases hmem with h | h
    · exact absurd h (List.not_mem_nil _)
    · exact h
  | cons p ps ih =>
    unfold pblumCopyPass at ih ⊢
    rw [List.foldl_cons]
    have hpr : p.1 ≠ r := hr p (List.mem_cons_self _ _)
    have hrv2 : updateStore scales p.1 (scales p.2) r = v := by
      unfold updateStore
      rw [if_neg (fun h => hpr h.symm)]
      exact hrv
    apply ih _ hrv2 (fun q hq => hr q (List.mem_cons_of_mem _ hq))
      (fun q hq hq1 => hc q (List.mem_cons_of_mem _ hq) hq1)
    rcases hmem with h | h
    · rcases List.mem_cons.1 h with h2 | h2
      · right
        rw [← h2]
        unfold updateStore
        show (if c = c then scales r else scales c) = v
        rw [if_pos rfl]
        exact hrv
      · exact Or.inl h2
    · right
      unfold updateStore
      by_cases hpc : c = p.1
      · rw [if_pos hpc]
        have hp2 : p.2 = r := hc p (List.mem_cons_self _ _) hpc.symm
        rw [hp2, hrv]
      · rw [if_neg hpc]
        exact h

/-- C4: after the two-pass luminosity calibration of one light-curve
dataset, every self-referencing meshable component has its scale computed
directly; a component whose `pblum_ref` names a self-referencing component
has its scale set by copying the already-computed scale of that component
(the copy pass runs only after all self scales are stored); and in the
two-component case where `c` references `r` and `r` is self, the stored
scale of `c` exactly equals the stored scale of `r`. -/
theorem pblum_two_phase_resolution (cfg : PblumCfg) (c r : String)
    (hcm : c ∈ cfg.meshables) (hcd : c ≠ "_default")
    (hrm : r ∈ cfg.meshables) (hrd : r ≠ "_default")
    (hcr : cfg.pblum_ref c = r) (hcs : cfg.pblum_ref c ≠ "self")
    (hrs : cfg.pblum_ref r = "self") :
    (∀ s ∈ cfg.meshables, s ≠ "_default" → cfg.pblum_ref s = "self" →
        pblum_resolve cfg s = some (cfg.computed_scale s))
    ∧ pblum_resolve cfg c = some (cfg.computed_scale r)
    ∧ pblum_resolve cfg c = pblum_resolve cfg r := by
  have hkeys : ∀ s : String, cfg.pblum_ref s = "self" →
      ∀ p ∈ (pblumPhase1 cfg).2, p.1 ≠ s := by
    intro s hself p hp hps
    rcases pblumStep_snd_spec cfg _ _ p hp with h | h
    · exact absurd h (List.not_mem_nil p)
    · exact h.2.1 (hps ▸ hself)
  have hselfres : ∀ s ∈ cfg.meshables, s ≠ "_default" → cfg.pblum_ref s = "self" →
      pblum_resolve cfg s = some (cfg.computed_scale s) := by
    intro s hsm hsd hself
    unfold pblum_resolve
    rw [pblumCopyPass_preserved _ _ _ (hkeys s hself)]
    exact pblumPhase1_self cfg s hself hsd _ _ hsm
  refine ⟨hselfres, ?_, ?_⟩
  · unfold pblum_resolve
    have hcopies : ∀ p ∈ (pblumPhase1 cfg).2, p.1 = c → p.2 = r := by
      intro p hp hpc
      rcases pblumStep_snd_spec cfg _ _ p hp with h | h
      · exact absurd h (List.not_mem_nil p)
      · rw [h.2.2, hpc, hcr]
    apply pblumCopyPass_copies _ _ c r (some (cfg.computed_scale r))
      (pblumPhase1_self cfg r hrs hrd _ _ hrm) (hkeys r hrs) hcopies
    left
    have := pblumPhase1_copy_mem cfg c hcs hcd cfg.meshables (fun _ => none, []) hcm
    rw [hcr] at this
    exact this
  · have h1 : pblum_resolve cfg c = some (cfg.computed_scale r) := by
      unfold pblum_resolve
      have hcopies : ∀ p ∈ (pblumPhase1 cfg).2, p.1 = c → p.2 = r := by
        intro p hp hpc
        rcases pblumStep_snd_spec cfg _ _ p hp with h | h
        · exact absurd h (List.not_mem_nil p)
        · rw [h.2.2, hpc, hcr]
      apply pblumCopyPass_copies _ _ c r (some (cfg.computed_scale r))
        (pblumPhase1_self cfg r hrs hrd _ _ hrm) (hkeys r hrs) hcopies
      left
      have := pblumPhase1_copy_mem cfg c hcs hcd cfg.meshables (fun _ => none, []) hcm
      rw [hcr] at this
      exact this
    rw [h1, hselfres r hrm hrd hrs]

theorem pblum_two_phase_resolution_witness :
    ("primary" : String) ∈ pbCfg.meshables ∧ pbCfg.pblum_ref "primary" = "secondary" ∧
      pbCfg.pblum_ref "secondary" = "self" ∧
      ((∀ s ∈ pbCfg.meshables, s ≠ "_default" → pbCfg.pblum_ref s = "self" →
          pblum_resolve pbCfg s = some (pbCfg.computed_scale s))
      ∧ pblum_resolve pbCfg "primary" = some (pbCfg.computed_scale "secondary")
      ∧ pblum_resolve pbCfg "primary" = pblum_resolve pbCfg "secondary") :=
  ⟨by decide, by decide, by decide,
    pblum_two_phase_resolution pbCfg "primary" "secondary" (by decide) (by decide)
      (by decide) (by decide) (by decide) (by decide) (by decide)⟩

theorem linspace_getElem (a b : ℚ) (n : ℕ) (hn : 2 ≤ n) (i : ℕ) (hi : i < n) :
    (linspace a b n)[i]? = some (a + (b - a) * i / ((n : ℚ) - 1)) := by
  unfold linspace
  rw [if_neg (by omega), if_neg (by omega)]
  simp [List.getElem?_map, List.getElem?_range, hi]

theorem linspace_length (a b : ℚ) (n : ℕ) (hn : 2 ≤ n) :
    (linspace a b n).length = n := by
  unfold linspace
  rw [if_neg (by omega), if_neg (by omega)]
  rw [List.length_map, List.length_range]

theorem linspace_getD (a b : ℚ) (n : ℕ) (hn : 2 ≤ n) (i : ℕ) (hi : i < n) :
    (linspace a b n).getD i 0 = a + (b - a) * i / ((n : ℚ) - 1) := by
  rw [List.getD_eq_getD_get?, List.get?_eq_getElem?, linspace_getElem a b n hn i hi]
  rfl

/-- C5: when exposure-time oversampling applies to a light-curve dataset
(positive exposure time, finite-integration-time method `oversample`), the
planner replaces each original time `t` by the sub-grid
`linspace(t-exptime/2, t+exptime/2, fti_oversample)`; for an oversample
count of at least 2 this sub-grid has exactly that many entries, spans
`[t-exptime/2, t+exptime/2]`, is uniformly spaced, and is symmetric about
`t` (the scenario exptime `1/10`, count 3, time 5 yields
`[99/20, 5, 101/20]`, i.e. `[4.95, 5.0, 5.05]`). -/
theorem fti_oversample_subgrid (b : Bundle) (provided : Option (List ℚ))
    (dataset : String) (raw : List ℚ) (t e : ℚ) (n : ℕ)
    (he : b.exptime dataset = e) (hepos : 0 < e)
    (hf : b.fti_method dataset = "oversample")
    (hn : b.fti_oversample dataset = n) (h2 : 2 ≤ n) :
    resolveTimes b true provided dataset "lc" raw =
      ((overrideTimes provided raw).map (fun s => linspace (s - e / 2) (s + e / 2) n)).flatten
    ∧ (linspace (t - e / 2) (t + e / 2) n).length = n
    ∧ (linspace (t - e / 2) (t + e / 2) n).getD 0 0 = t - e / 2
    ∧ (linspace (t - e / 2) (t + e / 2) n).getD (n - 1) 0 = t + e / 2
    ∧ (∀ i, i < n →
        (linspace (t - e / 2) (t + e / 2) n).getD i 0 = t - e / 2 + e * i / ((n : ℚ) - 1))
    ∧ (∀ i, i < n →
        (linspace (t - e / 2) (t + e / 2) n).getD i 0
          + (linspace (t - e / 2) (t + e / 2) n).getD (n - 1 - i) 0 = 2 * t)
    ∧ (∀ i, i + 1 < n →
        (linspace (t - e / 2) (t + e / 2) n).getD (i + 1) 0
          - (linspace (t - e / 2) (t + e / 2) n).getD i 0 = e / ((n : ℚ) - 1))
    ∧ oversampleTimes (1 / 10) 3 [5] = [99 / 20, 5, 101 / 20] := by
  have hne : ((n : ℚ) - 1) ≠ 0 := by
    have : (2 : ℚ) ≤ (n : ℚ) := by exact_mod_cast h2
    intro hzero
    nlinarith
  have hval : ∀ i, i < n →
      (linspace (t - e / 2) (t + e / 2) n).getD i 0 = t - e / 2 + e * i / ((n : ℚ) - 1) := by
    intro i hi
    rw [linspace_getD _ _ n h2 i hi]
    ring_nf
  refine ⟨?_, linspace_length _ _ n h2, ?_, ?_, hval, ?_, ?_, ?_⟩
  · unfold resolveTimes oversampleTimes
    rw [he, hn, if_pos]
    exact ⟨rfl, by decide, hepos, hf⟩
  · rw [hval 0 (by omega)]
    simp
  · rw [hval (n - 1) (by omega)]
    have hcast : ((n - 1 : ℕ) : ℚ) = (n : ℚ) - 1 := by
      have h1 : 1 ≤ n := by omega
      push_cast [Nat.cast_sub h1]
      ring
    rw [hcast, mul_div_assoc, div_self hne, mul_one]
    ring
  · intro i hi
    rw [hval i hi, hval (n - 1 - i) (by omega)]
    have hcast : ((n - 1 - i : ℕ) : ℚ) = (n : ℚ) - 1 - i := by
      have h1 : i ≤ n - 1 := by omega
      have h1b : 1 ≤ n := by omega
      push_cast [Nat.cast_sub h1, Nat.cast_sub h1b]
      ring
    rw [hcast]
    field_simp
    ring
  · intro i hi
    rw [hval (i + 1) (by omega), hval i (by omega)]
    push_cast
    field_simp
    ring
  · norm_num [oversampleTimes, linspace, List.range_succ]

theorem fti_oversample_subgrid_witness :
    bOS.exptime "lc01" = 1 / 10 ∧ (0 : ℚ) < 1 / 10 ∧
      bOS.fti_method "lc01" = "oversample" ∧ bOS.fti_oversample "lc01" = 3 ∧ 2 ≤ 3 ∧
      (resolveTimes bOS true none "lc01" "lc" [5] =
        ((overrideTimes none [5]).map
          (fun s => linspace (s - (1 / 10) / 2) (s + (1 / 10) / 2) 3)).flatten
      ∧ (linspace (5 - (1 / 10) / 2) (5 + (1 / 10) / 2) 3).length = 3
      ∧ (linspace (5 - (1 / 10) / 2) (5 + (1 / 10) / 2) 3).getD 0 0 = 5 - (1 / 10) / 2
      ∧ (linspace (5 - (1 / 10) / 2) (5 + (1 / 10) / 2) 3).getD (3 - 1) 0 = 5 + (1 / 10) / 2
      ∧ (∀ i, i < 3 →
          (linspace (5 - (1 / 10) / 2) (5 + (1 / 10) / 2) 3).getD i 0
            = 5 - (1 / 10) / 2 + (1 / 10) * i / ((3 : ℚ) - 1))
      ∧ (∀ i, i < 3 →
          (linspace (5 - (1 / 10) / 2) (5 + (1 / 10) / 2) 3).getD i 0
            + (linspace (5 - (1 / 10) / 2) (5 + (1 / 10) / 2) 3).getD (3 - 1 - i) 0 = 2 * 5)
      ∧ (∀ i, i + 1 < 3 →
          (linspace (5 - (1 / 10) / 2) (5 + (1 / 10) / 2) 3).getD (i + 1) 0
            - (linspace (5 - (1 / 10) / 2) (5 + (1 / 10) / 2) 3).getD i 0
            = (1 / 10) / ((3 : ℚ) - 1))
      ∧ oversampleTimes (1 / 10) 3 [5] = [99 / 20, 5, 101 / 20]) :=
  ⟨rfl, by norm_num, rfl, rfl, by norm_num,
    fti_oversample_subgrid bOS none "lc01" [5] 5 (1 / 10) 3 rfl (by norm_num) rfl rfl
      (by norm_num)⟩

theorem insertTime_fst (st : List PyV × List (List Info)) (i : Info) (t : PyV) :
    (insertTime st i t).1 = if t ∈ st.1 then st.1 else st.1 ++ [t] := by
  unfold insertTime
  by_cases h : t ∈ st.1 <;> simp [h]

theorem insertTime_len (st : List PyV × List (List Info)) (i : Info) (t : PyV)
    (h : st.2.length = st.1.length) :
    (insertTime st i t).2.length = (insertTime st i t).1.length := by
  unfold insertTime
  by_cases hm : t ∈ st.1 <;> simp [hm, h]

theorem insertFold_fst_nodup (i : Info) (ts : List PyV)
    (st : List PyV × List (List Info)) (h : st.1.Nodup) :
    ((ts.foldl (fun s t => insertTime s i t) st).1).Nodup := by
  induction ts generalizing st with
  | nil => exact h
  | cons t ts2 ih =>
    rw [List.foldl_cons]
    apply ih
    rw [insertTime_fst]
    by_cases hm : t ∈ st.1 <;> simp [hm, h, List.nodup_append]

theorem insertFold_len (i : Info) (ts : List PyV)
    (st : List PyV × List (List Info)) (h : st.2.length = st.1.length) :
    ((ts.foldl (fun s t => insertTime s i t) st).2).length
      = ((ts.foldl (fun s t => insertTime s i t) st).1).length := by
  induction ts generalizing st with
  | nil => exact h
  | cons t ts2 ih =>
    rw [List.foldl_cons]
    exact ih _ (insertTime_len st i t h)

theorem insertFold_mem_mono (i : Info) (ts : List PyV)
    (st : List PyV × List (List Info)) (s : PyV) (h : s ∈ st.1) :
    s ∈ (ts.foldl (fun s t => insertTime s i t) st).1 := by
  induction ts generalizing st with
  | nil => exact h
  | cons t ts2 ih =>
    rw [List.foldl_cons]
    apply ih
    rw [insertTime_fst]
    by_cases hm : t ∈ st.1 <;> simp [hm, h]

theorem insertFold_mem (i : Info) (ts : List PyV)
    (st : List PyV × List (List Info)) (t : PyV) (h : t ∈ ts) :
    t ∈ (ts.foldl (fun s t => insertTime s i t) st).1 := by
  induction ts generalizing st with
  | nil => exact absurd h (List.not_mem_nil t)
  | cons u ts2 ih =>
    rw [List.foldl_cons]
    rcases List.mem_cons.1 h with rfl | h2
    · apply insertFold_mem_mono
      rw [insertTime_fst]
      by_cases hm : t ∈ st.1 <;> simp [hm]
    · exact ih _ h2

theorem gridFold_nodup (l : List Info) (st : List PyV × List (List Info))
    (h : st.1.Nodup) : ((l.foldl addInfo st).1).Nodup := by
  induction l generalizing st with
  | nil => exact h
  | cons a as ih =>
    rw [List.foldl_cons]
    exact ih _ (insertFold_fst_nodup a a.times st h)

theorem gridFold_len (l : List Info) (st : List PyV × List (List Info))
    (h : st.2.length = st.1.length) :
    ((l.foldl addInfo st).2).length = ((l.foldl addInfo st).1).length := by
  induction l generalizing st with
  | nil => exact h
  | cons a as ih =>
    rw [List.foldl_cons]
    exact ih _ (insertFold_len a a.times st h)

theorem gridFold_mem_mono (l : List Info) (st : List PyV × List (List Info))
    (s : PyV) (h : s ∈ st.1) : s ∈ (l.foldl addInfo st).1 := by
  induction l generalizing st with
  | nil => exact h
  | cons a as ih =>
    rw [List.foldl_cons]
    exact ih _ (insertFold_mem_mono a a.times st s h)

theorem gridFold_mem (l : List Info) (st : List PyV × List (List Info))
    (i : Info) (t : PyV) (hi : i ∈ l) (ht : t ∈ i.times) :
    t ∈ (l.foldl addInfo st).1 := by
  induction l generalizing st with
  | nil => exact absurd hi (List.not_mem_nil i)
  | cons a as ih =>
    rw [List.foldl_cons]
    rcases List.mem_cons.1 hi with rfl | h2
    · exact gridFold_mem_mono as _ t (insertFold_mem i i.times st t ht)
    · exact ih _ h2

theorem buildGrid_nodup (l : List Info) : ((buildGrid l).1).Nodup :=
  gridFold_nodup l ([], []) List.nodup_nil

theorem buildGrid_len (l : List Info) : ((buildGrid l).2).length = ((buildGrid l).1).length :=
  gridFold_len l ([], []) rfl

theorem buildGrid_mem (l : List Info) (i : Info) (t : PyV) (hi : i ∈ l) (ht : t ∈ i.times) :
    t ∈ (buildGrid l).1 :=
  gridFold_mem l ([], []) i t hi ht

theorem automeshInner_fold_len (g : List PyV) (i : Info) (ts : List PyV)
    (inf out : List (List Info))
    (h : ts.foldlM (automeshInner g i) inf = some out) : out.length = inf.length := by
  induction ts generalizing inf with
  | nil =>
    simp only [List.foldlM_nil, Option.pure_def] at h
    cases h
    rfl
  | cons t ts2 ih =>
    rw [List.foldlM_cons] at h
    unfold automeshInner at h
    by_cases hc : g.contains t
    · rw [if_pos hc] at h
      simp only [Option.bind_eq_bind, Option.some_bind] at h
      rw [ih _ h]
      unfold appendAt
      simp
    · rw [if_neg hc] at h
      simp only [Option.bind_eq_bind, Option.none_bind] at h
      cases h

theorem automeshFold_len (ts : List PyV) (gt : Option (List PyV)) (comps : List String) :
    ∀ (st : List Info × List (List Info)) (p : List Info × List (List Info)),
    comps.foldlM (automeshStep ts gt) st = some p → p.2.length = st.2.length := by
  induction comps with
  | nil =>
    intro st p h
    simp only [List.foldlM_nil, Option.pure_def] at h
    cases h
    rfl
  | cons c cs ih =>
    intro st p h
    rw [List.foldlM_cons] at h
    unfold automeshStep at h
    rcases hin : (if gridTruthy gt then ts.foldlM (automeshInner (gt.getD []) (mkPb ts c)) st.2
        else some st.2) with _ | inf2
    · rw [hin] at h
      simp only [Option.bind_eq_bind, Option.none_bind] at h
      cases h
    · rw [hin] at h
      simp only [Option.bind_eq_bind, Option.some_bind] at h
      rw [ih _ _ h]
      show inf2.length = st.2.length
      by_cases hg : gridTruthy gt
      · rw [if_pos hg] at hin
        exact automeshInner_fold_len _ _ _ _ _ hin
      · rw [if_neg hg] at hin
        cases hin
        rfl

theorem automesh_len (b : Bundle) (needed : List Info) (infos : List (List Info))
    (gt : Option (List PyV)) (p : List Info × List (List Info))
    (h : _handle_automesh b needed infos gt = some p) : p.2.length = infos.length := by
  unfold _handle_automesh at h
  split_ifs at h with hk
  · exact automeshFold_len _ _ _ _ _ h
  · cases h
    rfl

theorem sorted_lt_of_le_nodup (l : List PyV) (hs : l.Sorted (· ≤ ·)) (hn : l.Nodup) :
    l.Sorted (· < ·) :=
  (hs.and hn).imp (fun h => lt_of_le_of_ne h.1 h.2)

theorem protomesh_snd (b : Bundle) (needed : List Info) (inf : List (List Info)) :
    (_handle_protomesh b needed inf).2 = inf := by
  unfold _handle_protomesh
  split_ifs <;> rfl

/-- C1: in by-time planning, the returned global time grid is strictly
ascending (hence has no duplicate entries), and every time value of every
resolved work item of every enabled dataset appears exactly once in it. -/
theorem by_time_grid_sorted_unique (b : Bundle) (provided : Option (List ℚ))
    (pm am ao : Bool) (ts : List PyV) (infos : List (List Info)) (syns : List Info)
    (h : extractByTime b provided pm am ao = some (ts, infos, syns)) :
    List.Sorted (· < ·) ts
    ∧ ∀ i ∈ realInfos b ao provided, ∀ t ∈ i.times, ts.count t = 1 := by
  simp only [extractByTime] at h
  split at h
  next heq => exact Option.noConfusion h
  next ni2 heq =>
    have h2 := Option.some.inj h
    rw [Prod.mk.injEq, Prod.mk.injEq] at h2
    obtain ⟨hts, hinfos, hsyns⟩ := h2
    have hni2len : ni2.2.length = (buildGrid (realInfos b ao provided)).2.length := by
      by_cases ham : am = true
      · rw [if_pos ham] at heq
        have hl := automesh_len b _ _ _ ni2 heq
        rw [hl]
        by_cases hpm : pm = true
        · rw [if_pos hpm]
          show (_handle_protomesh b _ _).2.length = _
          rw [protomesh_snd]
        · rw [if_neg hpm]
      · rw [if_neg ham] at heq
        have he2 := Option.some.inj heq
        rw [← he2]
        by_cases hpm : pm = true
        · rw [if_pos hpm]
          show (_handle_protomesh b _ _).2.length = _
          rw [protomesh_snd]
        · rw [if_neg hpm]
    have hlen : ni2.2.length = (buildGrid (realInfos b ao provided)).1.length := by
      rw [hni2len]
      exact buildGrid_len _
    have hnodup : ((buildGrid (realInfos b ao provided)).1).Nodup := buildGrid_nodup _
    by_cases hemp : (buildGrid (realInfos b ao provided)).1.isEmpty
    · rw [if_pos hemp] at hts
      have hts2 : (buildGrid (realInfos b ao provided)).1 = ts := hts
      have hempty : (buildGrid (realInfos b ao provided)).1 = [] := by
        simpa using hemp
      constructor
      · rw [← hts2, hempty]
        exact List.sorted_nil
      · intro i hi t ht
        exfalso
        have hmem := buildGrid_mem _ i t hi ht
        rw [hempty] at hmem
        exact List.not_mem_nil t hmem
    · rw [if_neg hemp] at hts
      have hts3 : (List.insertionSort pairLe
          ((buildGrid (realInfos b ao provided)).1.zip ni2.2)).map (fun p => p.1) = ts := hts
      have hfst : (fun p : PyV × List Info => p.1) = Prod.fst := rfl
      have hperm : List.Perm ts ((buildGrid (realInfos b ao provided)).1) := by
        rw [← hts3, hfst]
        have hp1 : List.Perm
            ((List.insertionSort pairLe
              ((buildGrid (realInfos b ao provided)).1.zip ni2.2)).map Prod.fst)
            ((((buildGrid (realInfos b ao provided)).1.zip ni2.2)).map Prod.fst) :=
          (List.perm_insertionSort _ _).map _
        rw [List.map_fst_zip _ _ (le_of_eq hlen.symm)] at hp1
        exact hp1
      constructor
      · have hso : List.Pairwise (fun x y : PyV => x ≤ y) ts := by
          rw [← hts3]
          exact List.Pairwise.map _ (fun a b hab => hab)
            (List.sorted_insertionSort pairLe _)
        exact sorted_lt_of_le_nodup ts hso (hperm.nodup_iff.2 hnodup)
      · intro i hi t ht
        rw [hperm.count_eq]
        exact List.count_eq_one_of_mem hnodup (buildGrid_mem _ i t hi ht)

theorem by_time_grid_sorted_unique_witness :
    extractByTime bLC none false false false
        = some ([((0 : ℚ) : PyV), ((1 : ℚ) : PyV)], [[iLC], [iLC]], [iLC])
    ∧ (List.Sorted (· < ·) [((0 : ℚ) : PyV), ((1 : ℚ) : PyV)]
      ∧ ∀ i ∈ realInfos bLC false none, ∀ t ∈ i.times,
          List.count t [((0 : ℚ) : PyV), ((1 : ℚ) : PyV)] = 1) :=
  ⟨by decide,
    by_time_grid_sorted_unique bLC none false false false
      [((0 : ℚ) : PyV), ((1 : ℚ) : PyV)] [[iLC], [iLC]] [iLC] (by decide)⟩

theorem appendAt_getD (inf : List (List Info)) (ind ind2 : ℕ) (i : Info)
    (hlt : ind < inf.length) :
    (appendAt inf ind i).getD ind2 []
      = if ind2 = ind then inf.getD ind2 [] ++ [i] else inf.getD ind2 [] := by
  unfold appendAt
  rw [List.getD_eq_getD_get?, List.get?_eq_getElem?, List.getElem?_set]
  by_cases he : ind2 = ind
  · subst he
    rw [if_pos rfl, if_pos rfl, if_pos hlt]
    rfl
  · rw [if_neg (fun hx => he hx.symm), if_neg he, ← List.get?_eq_getElem?,
      ← List.getD_eq_getD_get?]

theorem getD_indexOf (g : List PyV) (t : PyV) (h : t ∈ g) :
    g.getD (g.indexOf t) ⊥ = t := by
  have hidx : g.indexOf t < g.length := List.indexOf_lt_length.2 h
  rw [List.getD_eq_getElem _ _ hidx]
  exact List.getElem_indexOf hidx

theorem nodup_getD_inj (g : List PyV) (hn : g.Nodup) (i j : ℕ) (hi : i < g.length)
    (hj : j < g.length) (h : g.getD i ⊥ = g.getD j ⊥) : i = j := by
  rw [List.getD_eq_getElem _ _ hi, List.getD_eq_getElem _ _ hj] at h
  exact (@List.Nodup.getElem_inj_iff _ _ hn i hi j hj).1 h

theorem automeshInner_fold_slots (g : List PyV) (hg : g.Nodup) (i : Info)
    (ts : List PyV) (hts : ts.Nodup) (hsub : ∀ t ∈ ts, t ∈ g)
    (inf : List (List Info)) (hlen : inf.length = g.length) :
    ∃ out, ts.foldlM (automeshInner g i) inf = some out ∧ out.length = g.length ∧
      ∀ ind, ind < g.length →
        out.getD ind [] =
          if g.getD ind ⊥ ∈ ts then inf.getD ind [] ++ [i] else inf.getD ind [] := by
  induction ts generalizing inf with
  | nil =>
    refine ⟨inf, by simp, hlen, ?_⟩
    intro ind hind
    simp
  | cons t ts2 ih =>
    have htg : t ∈ g := hsub t (List.mem_cons_self _ _)
    have hcont : g.contains t = true := by simpa using htg
    have hidx : g.indexOf t < g.length := List.indexOf_lt_length.2 htg
    have hlen1 : (appendAt inf (g.indexOf t) i).length = g.length := by
      unfold appendAt
      simp [hlen]
    have hnodup2 : ts2.Nodup := (List.nodup_cons.1 hts).2
    have hnotmem : t ∉ ts2 := (List.nodup_cons.1 hts).1
    obtain ⟨out, hout, hlen2, hslots⟩ := ih hnodup2
      (fun u hu => hsub u (List.mem_cons_of_mem _ hu)) (appendAt inf (g.indexOf t) i) hlen1
    refine ⟨out, ?_, hlen2, ?_⟩
    · rw [List.foldlM_cons]
      unfold automeshInner
      rw [if_pos hcont]
      simpa only [Option.bind_eq_bind, Option.some_bind] using hout
    · intro ind hind
      have hvt : g.getD (g.indexOf t) ⊥ = t := getD_indexOf g t htg
      have hA := appendAt_getD inf (g.indexOf t) ind i (by rw [hlen]; exact hidx)
      rw [hslots ind hind, hA]
      by_cases h1 : g.getD ind ⊥ ∈ ts2
      · have hne : ind ≠ g.indexOf t := by
          intro he
          rw [he, hvt] at h1
          exact hnotmem h1
        rw [if_pos h1, if_neg hne, if_pos (List.mem_cons_of_mem _ h1)]
      · by_cases h2 : g.getD ind ⊥ = t
        · have he : ind = g.indexOf t :=
            nodup_getD_inj g hg ind (g.indexOf t) hind hidx (by rw [h2, hvt])
          rw [if_neg h1, if_pos he, if_pos (by rw [h2]; exact List.mem_cons_self _ _)]
        · have hne : ind ≠ g.indexOf t := by
            intro he
            rw [he, hvt] at h2
            exact h2 rfl
          rw [if_neg h1, if_neg hne,
            if_neg (by rw [List.mem_cons]; exact fun hx => hx.elim h2 h1)]

theorem automeshStep_grid (ts g : List PyV) (hgt : gridTruthy (some g) = true)
    (st : List Info × List (List Info)) (c : String) (inf1 : List (List Info))
    (hin : ts.foldlM (automeshInner g (mkPb ts c)) st.2 = some inf1) :
    automeshStep ts (some g) st c = some (st.1 ++ [mkPb ts c], inf1) := by
  unfold automeshStep
  rw [if_pos hgt]
  show (match ts.foldlM (automeshInner g (mkPb ts c)) st.2 with
    | none => none
    | some infos2 => some (st.1 ++ [mkPb ts c], infos2)) = _
  rw [hin]

theorem automeshFold_grid (ts g : List PyV) (hg : g.Nodup) (hts : ts.Nodup)
    (hsub : ∀ t ∈ ts, t ∈ g) (hgne : g.isEmpty = false) (comps : List String) :
    ∀ (needed : List Info) (infos : List (List Info)), infos.length = g.length →
    ∃ out, comps.foldlM (automeshStep ts (some g)) (needed, infos)
        = some (needed ++ comps.map (mkPb ts), out) ∧ out.length = g.length ∧
      ∀ ind, ind < g.length →
        out.getD ind [] = infos.getD ind []
          ++ (if g.getD ind ⊥ ∈ ts then comps.map (mkPb ts) else []) := by
  induction comps with
  | nil =>
    intro needed infos hlen
    refine ⟨infos, by simp, hlen, ?_⟩
    intro ind hind
    by_cases hm : g.getD ind ⊥ ∈ ts <;> simp [hm]
  | cons c cs ih =>
    intro needed infos hlen
    obtain ⟨inf1, hin1, hlen1, hslots1⟩ :=
      automeshInner_fold_slots g hg (mkPb ts c) ts hts hsub infos hlen
    obtain ⟨out, hout, hlen2, hslots2⟩ := ih (needed ++ [mkPb ts c]) inf1 hlen1
    refine ⟨out, ?_, hlen2, ?_⟩
    · have hgt : gridTruthy (some g) = true := by
        simp [gridTruthy, hgne]
      rw [List.foldlM_cons, automeshStep_grid ts g hgt (needed, infos) c inf1 hin1]
      simp only [Option.bind_eq_bind, Option.some_bind]
      rw [hout]
      simp [List.append_assoc]
    · intro ind hind
      rw [hslots2 ind hind, hslots1 ind hind]
      by_cases hm : g.getD ind ⊥ ∈ ts
      · simp only [if_pos hm, List.append_assoc, List.singleton_append, List.map_cons]
      · simp only [if_neg hm, List.append_nil]

theorem sortedDedup_nodup (l : List PyV) : (sortedDedup l).Nodup :=
  ((List.perm_insertionSort _ _).nodup_iff).2 (List.nodup_dedup l)

theorem sortedDedup_mem (l : List PyV) (t : PyV) : t ∈ sortedDedup l ↔ t ∈ l := by
  unfold sortedDedup
  rw [List.mem_insertionSort, List.mem_dedup]

theorem sortedDedup_sorted (l : List PyV) : (sortedDedup l).Sorted (· < ·) :=
  sorted_lt_of_le_nodup _ (List.sorted_insertionSort _ _) (sortedDedup_nodup l)

/-- C6 counterexample: two mesh-requiring radial-velocity work items of the
same dataset with different per-component time arrays.  The dataset-keyed
dict of `_handle_automesh` (source line 302) keeps only the last item per
dataset, so the pbmesh time array is `[2]` while the sorted deduplicated
union of the times of every mesh-requiring non-mesh work item is `[1, 2]`. -/
theorem automesh_union_counterexample :
    iRV1.dataset = iRV2.dataset ∧ iRV1.needs_mesh = true ∧ iRV2.needs_mesh = true
    ∧ iRV1.kind ≠ "mesh" ∧ iRV2.kind ≠ "mesh"
    ∧ sortedDedup (([iRV1, iRV2].map (fun i => i.times)).flatten)
        = [((1 : ℚ) : PyV), ((2 : ℚ) : PyV)]
    ∧ autoTimes [iRV1, iRV2] = [((2 : ℚ) : PyV)]
    ∧ _handle_automesh bLC [iRV1, iRV2] [] none
        = some ([iRV1, iRV2,
            mkPb [((2 : ℚ) : PyV)] "primary", mkPb [((2 : ℚ) : PyV)] "secondary"], [])
    ∧ ([((2 : ℚ) : PyV)] : List PyV) ≠ [((1 : ℚ) : PyV), ((2 : ℚ) : PyV)] := by
  decide

/-- C6 amended: when the engine supports automesh output, exactly one pbmesh
work item is appended per meshable component, with `needs_mesh` true and a
time array equal to the sorted deduplicated union of the times of the
last-encountered mesh-requiring non-mesh work item of each dataset (one
representative per dataset, not of every such work item); in globally-sorted
mode each pbmesh item is additionally appended to the per-time active list
of every grid slot matching one of its times, and other slots are left
unchanged. -/
theorem automesh_items_amended (b : Bundle) (needed : List Info)
    (infos : List (List Info)) (g : List PyV)
    (hk : b.compute_kind ∈ _backends_that_support_automesh)
    (hg : g.Nodup) (hlen : infos.length = g.length) (hgne : g.isEmpty = false)
    (hsub : ∀ t ∈ autoTimes needed, t ∈ g) :
    ∃ out, _handle_automesh b needed infos (some g)
        = some (needed ++ b.meshables.map (pbItem needed), out)
      ∧ (∀ comp, (pbItem needed comp).needs_mesh = true
          ∧ (pbItem needed comp).dataset = "pbmesh"
          ∧ (pbItem needed comp).kind = "mesh"
          ∧ (pbItem needed comp).times = autoTimes needed)
      ∧ (autoTimes needed).Sorted (· < ·)
      ∧ (∀ t, t ∈ autoTimes needed ↔ ∃ j ∈ needsMeshInfos needed, t ∈ j.times)
      ∧ out.length = infos.length
      ∧ (∀ ind, ind < g.length →
          out.getD ind [] = infos.getD ind []
            ++ (if g.getD ind ⊥ ∈ autoTimes needed
                then b.meshables.map (pbItem needed) else [])) := by
  obtain ⟨out, hout, hlen2, hslots⟩ :=
    automeshFold_grid (autoTimes needed) g hg (sortedDedup_nodup _) hsub hgne
      b.meshables needed infos hlen
  refine ⟨out, ?_, fun comp => ⟨rfl, rfl, rfl, rfl⟩, sortedDedup_sorted _, ?_, ?_, ?_⟩
  · unfold _handle_automesh
    rw [if_pos (by simpa using hk)]
    exact hout
  · intro t
    unfold autoTimes
    rw [sortedDedup_mem, List.mem_flatten]
    constructor
    · rintro ⟨l2, hl2, ht⟩
      rw [List.mem_map] at hl2
      obtain ⟨j, hj, rfl⟩ := hl2
      exact ⟨j, hj, ht⟩
    · rintro ⟨j, hj, ht⟩
      exact ⟨j.times, List.mem_map_of_mem _ hj, ht⟩
  · rw [hlen2, hlen]
  · exact hslots

theorem automesh_items_amended_witness :
    bLC.compute_kind ∈ _backends_that_support_automesh
    ∧ ([((1 : ℚ) : PyV)] : List PyV).Nodup
    ∧ ([[iRV1]] : List (List Info)).length = ([((1 : ℚ) : PyV)] : List PyV).length
    ∧ ([((1 : ℚ) : PyV)] : List PyV).isEmpty = false
    ∧ (∀ t ∈ autoTimes [iRV1], t ∈ ([((1 : ℚ) : PyV)] : List PyV))
    ∧ (∃ out, _handle_automesh bLC [iRV1] [[iRV1]] (some [((1 : ℚ) : PyV)])
          = some ([iRV1] ++ bLC.meshables.map (pbItem [iRV1]), out)
        ∧ (∀ comp, (pbItem [iRV1] comp).needs_mesh = true
            ∧ (pbItem [iRV1] comp).dataset = "pbmesh"
            ∧ (pbItem [iRV1] comp).kind = "mesh"
            ∧ (pbItem [iRV1] comp).times = autoTimes [iRV1])
        ∧ (autoTimes [iRV1]).Sorted (· < ·)
        ∧ (∀ t, t ∈ autoTimes [iRV1] ↔ ∃ j ∈ needsMeshInfos [iRV1], t ∈ j.times)
        ∧ out.length = ([[iRV1]] : List (List Info)).length
        ∧ (∀ ind, ind < ([((1 : ℚ) : PyV)] : List PyV).length →
            out.getD ind [] = ([[iRV1]] : List (List Info)).getD ind []
              ++ (if ([((1 : ℚ) : PyV)] : List PyV).getD ind ⊥ ∈ autoTimes [iRV1]
                  then bLC.meshables.map (pbItem [iRV1]) else []))) :=
  ⟨by decide, by decide, by decide, by decide, by decide,
    automesh_items_amended bLC [iRV1] [[iRV1]] [((1 : ℚ) : PyV)]
      (by decide) (by decide) (by decide) (by decide) (by decide)⟩

theorem resolveTimes_empty_override (b : Bundle) (ao : Bool) (ds kind : String)
    (raw : List ℚ) : resolveTimes b ao (some []) ds kind raw = [] := by
  have h1 : overrideTimes (some []) raw = [] := by
    unfold overrideTimes
    by_cases hr : raw.length ≠ 0
    · rw [if_pos ⟨hr, rfl⟩]
      rfl
    · rw [if_neg (fun hx => hr hx.1)]
      exact List.length_eq_zero.1 (not_ne_iff.1 hr)
  simp only [resolveTimes, h1]
  split_ifs
  · rfl
  · rfl

theorem datasetStep_empty_override (b : Bundle) (ao : Bool) (ds : String)
    (acc : List Info) (comp : Option String) :
    datasetStep b ao (some []) ds acc comp = acc := by
  unfold datasetStep
  dsimp only
  split
  · rfl
  · rcases hdt : b.dsTimes (_timequalifier_by_kind (b.dsKind ds)) ds comp with _ | raw
    · rfl
    · have hres := resolveTimes_empty_override b ao ds (b.dsKind ds) raw
      simp [hres]

theorem infosForDataset_empty_override (b : Bundle) (ao : Bool) (ds : String) :
    infosForDataset b ao (some []) ds = [] := by
  have hfold : ∀ (l : List (Option String)) (acc : List Info),
      l.foldl (datasetStep b ao (some []) ds) acc = acc := by
    intro l
    induction l with
    | nil => intro acc; rfl
    | cons a as ih =>
      intro acc
      rw [List.foldl_cons, datasetStep_empty_override]
      exact ih acc
  unfold infosForDataset
  split
  · rfl
  · split
    · rfl
    · split
      · rfl
      · exact hfold _ _

theorem realInfos_empty_override (b : Bundle) (ao : Bool) :
    realInfos b ao (some []) = [] := by
  unfold realInfos
  have hcongr : b.datasets.map (infosForDataset b ao (some []))
      = b.datasets.map (fun _ => ([] : List Info)) :=
    List.map_congr_left (fun ds _ => infosForDataset_empty_override b ao ds)
  rw [hcongr]
  simp

theorem protomesh_fst_mem (b : Bundle) (needed : List Info) (inf : List (List Info))
    (i : Info) (h : i ∈ (_handle_protomesh b needed inf).1) :
    i ∈ needed ∨ i.dataset = "protomesh" := by
  unfold _handle_protomesh at h
  split_ifs at h
  · rcases List.mem_append.1 h with h2 | h2
    · exact Or.inl h2
    · right
      rw [List.mem_map] at h2
      obtain ⟨comp, _, rfl⟩ := h2
      rfl
  · exact Or.inl h

theorem automeshStep_nogrid (ts : List PyV) (gt : Option (List PyV))
    (hgt : gridTruthy gt = false) (st : List Info × List (List Info)) (c : String) :
    automeshStep ts gt st c = some (st.1 ++ [mkPb ts c], st.2) := by
  unfold automeshStep
  rw [hgt]
  rfl

theorem automeshFold_nogrid (ts : List PyV) (gt : Option (List PyV))
    (hgt : gridTruthy gt = false) (comps : List String) :
    ∀ (needed : List Info) (infos : List (List Info)),
    comps.foldlM (automeshStep ts gt) (needed, infos)
      = some (needed ++ comps.map (mkPb ts), infos) := by
  induction comps with
  | nil =>
    intro needed infos
    simp
  | cons c cs ih =>
    intro needed infos
    rw [List.foldlM_cons, automeshStep_nogrid ts gt hgt (needed, infos) c]
    simp only [Option.bind_eq_bind, Option.some_bind]
    rw [ih]
    simp [List.append_assoc]

theorem automesh_nogrid (b : Bundle) (needed : List Info) (infos : List (List Info))
    (gt : Option (List PyV)) (hgt : gridTruthy gt = false) :
    ∃ out, _handle_automesh b needed infos gt = some (out, infos)
      ∧ ∀ i ∈ out, i ∈ needed ∨ i.dataset = "pbmesh" := by
  unfold _handle_automesh
  split_ifs with hk
  · refine ⟨needed ++ b.meshables.map (mkPb (autoTimes needed)),
      automeshFold_nogrid _ _ hgt _ _ _, ?_⟩
    intro i hi
    rcases List.mem_append.1 hi with h2 | h2
    · exact Or.inl h2
    · right
      rw [List.mem_map] at h2
      obtain ⟨c, _, rfl⟩ := h2
      rfl
  · exact ⟨needed, rfl, fun i hi => Or.inl hi⟩

theorem protomesh_branch (b : Bundle) (pm : Bool) :
    ∃ N, (if pm = true then _handle_protomesh b [] ([] : List (List Info))
          else (([] : List Info), ([] : List (List Info)))) = (N, [])
      ∧ ∀ i ∈ N, i.dataset = "protomesh" := by
  by_cases hpm : pm = true
  · rw [if_pos hpm]
    refine ⟨(_handle_protomesh b [] []).1,
      Prod.ext rfl (protomesh_snd b [] []), ?_⟩
    intro i hi
    rcases protomesh_fst_mem b [] [] i hi with h2 | h2
    · exact absurd h2 (List.not_mem_nil i)
    · exact h2
  · rw [if_neg hpm]
    exact ⟨[], rfl, fun i hi => absurd hi (List.not_mem_nil i)⟩

theorem automesh_branch (b : Bundle) (am : Bool) (N : List Info)
    (gt : Option (List PyV)) (hgt : gridTruthy gt = false) :
    ∃ M, (if am = true then _handle_automesh b N [] gt else some (N, [])) = some (M, [])
      ∧ ∀ i ∈ M, i ∈ N ∨ i.dataset = "pbmesh" := by
  by_cases ham : am = true
  · rw [if_pos ham]
    exact automesh_nogrid b N [] gt hgt
  · rw [if_neg ham]
    exact ⟨N, rfl, fun i hi => Or.inl hi⟩

/-- C10: with the empty (but present) override time list that both backend
entry points pass by default, every dataset with a non-empty time array has
its times overridden to the empty array (and a dataset whose own time array
is empty is left as is), so both planners produce no work items and no time
steps, and the container requests are only those of the virtual protomesh
and pbmesh datasets. -/
theorem empty_override_no_work_items (b : Bundle) (pm am ao : Bool) :
    realInfos b ao (some []) = []
    ∧ (∀ raw : List ℚ, raw ≠ [] → overrideTimes (some []) raw = [])
    ∧ (∀ provided : Option (List ℚ), overrideTimes provided [] = [])
    ∧ (∃ syns, extractByTime b (some []) pm am ao = some ([], [], syns)
        ∧ ∀ i ∈ syns, i.dataset = "protomesh" ∨ i.dataset = "pbmesh")
    ∧ (∃ syns2, extractByDataset b (some []) pm am = some ([], syns2)
        ∧ ∀ i ∈ syns2, i.dataset = "protomesh" ∨ i.dataset = "pbmesh") := by
  have hreal : realInfos b ao (some []) = [] := realInfos_empty_override b ao
  have hrealD : realInfos b false (some []) = [] := realInfos_empty_override b false
  obtain ⟨N, hN, hNmem⟩ := protomesh_branch b pm
  refine ⟨hreal, ?_, ?_, ?_, ?_⟩
  · intro raw hr
    unfold overrideTimes
    rw [if_pos ⟨by simpa using hr, rfl⟩]
    rfl
  · intro provided
    unfold overrideTimes
    rw [if_neg (by simp)]
  · obtain ⟨M, hM, hMmem⟩ := automesh_branch b am N (some []) rfl
    refine ⟨M, ?_, ?_⟩
    · simp only [extractByTime]
      rw [hreal]
      rw [show buildGrid ([] : List Info) = (([] : List PyV), ([] : List (List Info)))
        from rfl]
      dsimp only
      rw [hN]
      dsimp only
      rw [hM]
      rfl
    · intro i hi
      rcases hMmem i hi with h2 | h2
      · exact Or.inl (hNmem i h2)
      · exact Or.inr h2
  · obtain ⟨M, hM, hMmem⟩ := automesh_branch b am N none rfl
    refine ⟨M, ?_, ?_⟩
    · simp only [extractByDataset]
      rw [hrealD]
      dsimp only [List.map_nil]
      rw [hN]
      dsimp only
      rw [hM]
    · intro i hi
      rcases hMmem i hi with h2 | h2
      · exact Or.inl (hNmem i h2)
      · exact Or.inr h2
